import Mathlib

set_option maxHeartbeats 1000000

/-!
Verification of the session-activity inference engine of claude-code-ui
(packages/daemon/src: status-machine.ts, status.ts, watcher.ts), over a
shallow embedding of its data model and operations.  The incremental log
reader (parser.ts) is not part of the available sources, so it is modelled
from the specification, as marked on its definition.
-/

/-! ## Data model (types used by status-machine.ts) -/

/-- Content block of a `user` log record: a tool-result block referencing a
prior tool-use id, a text block, or any other block kind (image, ...). -/
inductive UserBlock where
  | toolResult (tool_use_id : String)
  | text (s : String)
  | other
  deriving DecidableEq

/-- Content block of an `assistant` log record: a text block, a tool-use
block (with unique id and tool name), or any other block kind. -/
inductive AssistantBlock where
  | text (s : String)
  | toolUse (id : String) (name : String)
  | other
  deriving DecidableEq

/-- Content of a `user` record: either a plain string prompt or a list of
content blocks. -/
inductive UserContent where
  | str (s : String)
  | blocks (bs : List UserBlock)
  deriving DecidableEq

/-- A log record (LogEntry), discriminated by role and carrying a timestamp;
`other` covers record types that the classifier ignores entirely. -/
inductive LogEntry where
  | user (timestamp : String) (content : UserContent)
  | assistant (timestamp : String) (content : List AssistantBlock)
  | system (timestamp : String) (subtype : String)
  | other
  deriving DecidableEq

/-- StatusContext from status-machine.ts: the mutable accumulator carried by
the state machine. -/
structure StatusContext where
  lastActivityAt : String
  messageCount : Nat
  hasPendingToolUse : Bool
  pendingToolIds : List String
  deriving DecidableEq

/-- StatusEvent from status-machine.ts: record-derived events plus the three
synthetic timeout events. -/
inductive StatusEvent where
  | USER_PROMPT (timestamp : String)
  | TOOL_RESULT (timestamp : String) (toolUseIds : List String)
  | ASSISTANT_STREAMING (timestamp : String)
  | ASSISTANT_TOOL_USE (timestamp : String) (toolUseIds : List String)
  | TURN_END (timestamp : String)
  | IDLE_TIMEOUT
  | APPROVAL_TIMEOUT
  | STALE_TIMEOUT
  deriving DecidableEq

/-- The four machine states of statusMachine. -/
inductive StatusState where
  | idle
  | working
  | waiting_for_approval
  | waiting_for_input
  deriving DecidableEq

/-- The fresh context each actor starts with (context factory of the machine). -/
def initialContext : StatusContext :=
  { lastActivityAt := "", messageCount := 0, hasPendingToolUse := false, pendingToolIds := [] }

/-- Initial configuration of statusMachine: state `waiting_for_input` with a
fresh context. -/
def initialConfig : StatusState × StatusContext := (StatusState.waiting_for_input, initialContext)

/-- One transition of statusMachine: the explicit transition table of the
xstate machine in status-machine.ts.  An event with no handler in the current
state is ignored (xstate semantics): the configuration is unchanged. -/
def statusMachineStep : StatusState × StatusContext → StatusEvent → StatusState × StatusContext
  | (.idle, ctx), .USER_PROMPT ts =>
      (.working, { ctx with lastActivityAt := ts, messageCount := ctx.messageCount + 1 })
  | (.working, ctx), .USER_PROMPT ts =>
      (.working, { ctx with
                     lastActivityAt := ts, messageCount := ctx.messageCount + 1,
                     hasPendingToolUse := false, pendingToolIds := [] })
  | (.working, ctx), .ASSISTANT_STREAMING ts =>
      (.working, { ctx with lastActivityAt := ts })
  | (.working, ctx), .ASSISTANT_TOOL_USE ts ids =>
      (.working, { ctx with
                     lastActivityAt := ts, messageCount := ctx.messageCount + 1,
                     hasPendingToolUse := true, pendingToolIds := ids })
  | (.working, ctx), .TOOL_RESULT ts ids =>
      let remaining := ctx.pendingToolIds.filter (fun i => !(ids.contains i))
      (.working, { ctx with
                     lastActivityAt := ts, messageCount := ctx.messageCount + 1,
                     pendingToolIds := remaining,
                     hasPendingToolUse := decide (0 < remaining.length) })
  | (.working, ctx), .TURN_END ts =>
      (.waiting_for_input, { ctx with
                               lastActivityAt := ts, hasPendingToolUse := false,
                               pendingToolIds := [] })
  | (.working, ctx), .APPROVAL_TIMEOUT => (.waiting_for_approval, ctx)
  | (.working, ctx), .STALE_TIMEOUT =>
      (.waiting_for_input, { ctx with hasPendingToolUse := false })
  | (.working, ctx), .IDLE_TIMEOUT => (.idle, ctx)
  | (.waiting_for_approval, ctx), .TOOL_RESULT ts ids =>
      let remaining := ctx.pendingToolIds.filter (fun i => !(ids.contains i))
      (.working, { ctx with
                     lastActivityAt := ts, messageCount := ctx.messageCount + 1,
                     pendingToolIds := remaining,
                     hasPendingToolUse := decide (0 < remaining.length) })
  | (.waiting_for_approval, ctx), .IDLE_TIMEOUT => (.idle, ctx)
  | (.waiting_for_input, ctx), .USER_PROMPT ts =>
      (.working, { ctx with lastActivityAt := ts, messageCount := ctx.messageCount + 1 })
  | (.waiting_for_input, ctx), .IDLE_TIMEOUT => (.idle, ctx)
  | c, _ => c

/-! ## Record classifier (logEntryToEvent) -/

/-- Whether a user content block is a tool-result block. -/
def isToolResultBlock : UserBlock → Bool
  | .toolResult _ => true
  | _ => false

/-- The tool-use id referenced by a user content block (tool-result blocks
carry one; for other blocks the field is absent, modelled as ""). -/
def toolUseIdOfUserBlock : UserBlock → String
  | .toolResult i => i
  | _ => ""

/-- Whether an assistant content block is a tool-use block not named "Task"
(Task tools are sub-agent spawns and are excluded from approval tracking). -/
def isNonTaskToolUse : AssistantBlock → Bool
  | .toolUse _ name => name != "Task"
  | _ => false

/-- The id of an assistant tool-use block (source maps non-tool-use blocks,
which the filter already removed, to ""). -/
def toolUseIdOfAssistantBlock : AssistantBlock → String
  | .toolUse i _ => i
  | _ => ""

/-- Whether a user content block list contains at least one text block. -/
def hasTextBlock (bs : List UserBlock) : Bool :=
  bs.any (fun b => match b with | .text _ => true | _ => false)

/-- logEntryToEvent from status-machine.ts: convert a log record to at most
one status event. -/
def logEntryToEvent : LogEntry → Option StatusEvent
  | .user ts (.str _) => some (.USER_PROMPT ts)
  | .user ts (.blocks bs) =>
      let toolUseIds := (bs.filter isToolResultBlock).map toolUseIdOfUserBlock
      if 0 < toolUseIds.length then some (.TOOL_RESULT ts toolUseIds)
      else if hasTextBlock bs then some (.USER_PROMPT ts)
      else none
  | .assistant ts bs =>
      let toolUseBlocks := bs.filter isNonTaskToolUse
      if 0 < toolUseBlocks.length then
        some (.ASSISTANT_TOOL_USE ts (toolUseBlocks.map toolUseIdOfAssistantBlock))
      else some (.ASSISTANT_STREAMING ts)
  | .system ts subtype =>
      if subtype = "turn_duration" ∨ subtype = "stop_hook_summary" then some (.TURN_END ts)
      else none
  | .other => none

/-! ## Status derivation (deriveStatusFromMachine) -/

/-- 5 minutes, in milliseconds. -/
def IDLE_TIMEOUT_MS : Int := 5 * 60 * 1000

/-- 5 seconds, in milliseconds. -/
def APPROVAL_TIMEOUT_MS : Int := 5 * 1000

/-- 60 seconds, in milliseconds. -/
def STALE_TIMEOUT_MS : Int := 60 * 1000

/-- The epoch time of the last activity: `new Date(lastActivityAt).getTime()`
when the timestamp string is non-empty (truthy), 0 otherwise.  `parseTime`
abstracts the Date parser. -/
def lastActivityTime (parseTime : String → Int) (ctx : StatusContext) : Int :=
  if ctx.lastActivityAt = "" then 0 else parseTime ctx.lastActivityAt

/-- The timeout-injection tail of deriveStatusFromMachine: based on elapsed
time since the last activity, send at most one synthetic timeout event
(IDLE, else APPROVAL, else STALE) to the machine. -/
def applyTimeouts (parseTime : String → Int) (now : Int)
    (c : StatusState × StatusContext) : StatusState × StatusContext :=
  let timeSinceActivity := now - lastActivityTime parseTime c.2
  if IDLE_TIMEOUT_MS < timeSinceActivity then
    statusMachineStep c .IDLE_TIMEOUT
  else if c.1 = .working ∧ c.2.hasPendingToolUse = true ∧
      APPROVAL_TIMEOUT_MS < timeSinceActivity then
    statusMachineStep c .APPROVAL_TIMEOUT
  else if c.1 = .working ∧ c.2.hasPendingToolUse = false ∧
      STALE_TIMEOUT_MS < timeSinceActivity then
    statusMachineStep c .STALE_TIMEOUT
  else c

/-- Run a plain sequence of status events through the machine from its
initial configuration. -/
def replayEvents (events : List StatusEvent) : StatusState × StatusContext :=
  events.foldl statusMachineStep initialConfig

/-- deriveStatusFromMachine from status-machine.ts: replay every log entry
through the machine (classifying each, skipping records with no event), then
apply the timeout check once at the end.  `now` abstracts Date.now(). -/
def deriveStatusFromMachine (parseTime : String → Int) (now : Int)
    (entries : List LogEntry) : StatusState × StatusContext :=
  let replayed := entries.foldl
    (fun c entry =>
      match logEntryToEvent entry with
      | some event => statusMachineStep c event
      | none => c) initialConfig
  applyTimeouts parseTime now replayed

/-! ## External status projection (status.ts) -/

/-- The 3-valued externally visible status. -/
inductive SessionStatus where
  | working
  | waiting
  | idle
  deriving DecidableEq

/-- Role of the last record, as carried by StatusResult. -/
inductive Role where
  | user
  | assistant
  deriving DecidableEq

/-- StatusResult: the externally published status record. -/
structure StatusResult where
  status : SessionStatus
  lastRole : Role
  hasPendingToolUse : Bool
  lastActivityAt : String
  messageCount : Nat
  deriving DecidableEq

/-- machineStatusToResult from status-machine.ts: project the 4 machine
states onto the 3 external states (lastRole is hardcoded "assistant"). -/
def machineStatusToResult (machineStatus : StatusState) (context : StatusContext) : StatusResult :=
  { status :=
      match machineStatus with
      | .working => .working
      | .waiting_for_approval => .waiting
      | .waiting_for_input => .waiting
      | .idle => .idle,
    lastRole := .assistant,
    hasPendingToolUse := context.hasPendingToolUse,
    lastActivityAt := context.lastActivityAt,
    messageCount := context.messageCount }

/-- deriveStatus from status.ts: machine derivation followed by the external
projection. -/
def deriveStatus (parseTime : String → Int) (now : Int) (entries : List LogEntry) : StatusResult :=
  let r := deriveStatusFromMachine parseTime now entries
  machineStatusToResult r.1 r.2

/-- statusChanged from status.ts: a meaningful change in status, last role or
pending-tool flag (lastActivityAt and messageCount are not compared). -/
def statusChanged (prev : Option StatusResult) (next : StatusResult) : Bool :=
  match prev with
  | none => true
  | some p =>
      decide (p.status ≠ next.status ∨ p.lastRole ≠ next.lastRole ∨
        p.hasPendingToolUse ≠ next.hasPendingToolUse)

example :
    deriveStatus (fun _ => 0) 0
      [LogEntry.user "t1" (UserContent.str "fix the bug")] =
    { status := .working, lastRole := .assistant, hasPendingToolUse := false,
      lastActivityAt := "t1", messageCount := 1 } := by decide

example :
    deriveStatus (fun _ => 0) 0
      [LogEntry.user "t1" (UserContent.str "fix the bug"),
       LogEntry.assistant "t2" [AssistantBlock.toolUse "id1" "Edit"],
       LogEntry.user "t3" (UserContent.blocks [UserBlock.toolResult "id1"]),
       LogEntry.system "t4" "turn_duration"] =
    { status := .waiting, lastRole := .assistant, hasPendingToolUse := false,
      lastActivityAt := "t4", messageCount := 3 } := by decide

/-! ## Pending-set consistency (claim C1) -/

/-- The pending-set consistency property of a status context. -/
def PendingInv (ctx : StatusContext) : Prop :=
  ctx.hasPendingToolUse = true ↔ ctx.pendingToolIds ≠ []

/-- The classifier only emits ASSISTANT_TOOL_USE with a non-empty id list. -/
theorem classified_tool_use_ids_ne_nil {entry : LogEntry} {ts : String}
    {ids : List String}
    (h : logEntryToEvent entry = some (.ASSISTANT_TOOL_USE ts ids)) : ids ≠ [] := by
  cases entry with
  | user ts' content =>
      cases content with
      | str s => simp [logEntryToEvent] at h
      | blocks bs =>
          simp only [logEntryToEvent] at h
          split at h
          · simp at h
          · split at h <;> simp at h
  | assistant ts' bs =>
      simp only [logEntryToEvent] at h
      split at h
      · rename_i hlen
        rw [Option.some.injEq, StatusEvent.ASSISTANT_TOOL_USE.injEq] at h
        intro hnil
        rw [← h.2, List.map_eq_nil_iff] at hnil
        rw [hnil] at hlen
        simp at hlen
      · simp at h
  | system ts' st =>
      simp only [logEntryToEvent] at h
      split at h <;> simp at h
  | other => simp [logEntryToEvent] at h

/-- The classifier never emits a synthetic timeout event. -/
theorem classified_not_timeout {entry : LogEntry} {ev : StatusEvent}
    (h : logEntryToEvent entry = some ev) :
    ev ≠ .IDLE_TIMEOUT ∧ ev ≠ .APPROVAL_TIMEOUT ∧ ev ≠ .STALE_TIMEOUT := by
  cases entry with
  | user ts' content =>
      cases content with
      | str s => simp [logEntryToEvent] at h; simp [← h]
      | blocks bs =>
          simp only [logEntryToEvent] at h
          split at h
          · simp at h; simp [← h]
          · split at h
            · simp at h; simp [← h]
            · simp at h
  | assistant ts' bs =>
      simp only [logEntryToEvent] at h
      split at h <;> (simp at h; simp [← h])
  | system ts' st =>
      simp only [logEntryToEvent] at h
      split at h
      · simp at h; simp [← h]
      · simp at h
  | other => simp [logEntryToEvent] at h

/-- One machine step preserves pending-set consistency, provided
ASSISTANT_TOOL_USE events carry non-empty id lists and STALE_TIMEOUT is only
applied without a pending tool use (as the derivation engine guarantees). -/
theorem pendingInv_step (c : StatusState × StatusContext) (ev : StatusEvent)
    (hInv : PendingInv c.2)
    (hATU : ∀ ts ids, ev = .ASSISTANT_TOOL_USE ts ids → ids ≠ [])
    (hStale : ev = .STALE_TIMEOUT → c.2.hasPendingToolUse = false) :
    PendingInv (statusMachineStep c ev).2 := by
  obtain ⟨s, ctx⟩ := c
  cases s <;> cases ev <;>
    simp_all [statusMachineStep, PendingInv, List.length_pos]

/-- Replaying classified log entries preserves pending-set consistency. -/
theorem pendingInv_replay (entries : List LogEntry) :
    ∀ c : StatusState × StatusContext, PendingInv c.2 →
      PendingInv (entries.foldl
        (fun c entry =>
          match logEntryToEvent entry with
          | some event => statusMachineStep c event
          | none => c) c).2 := by
  induction entries with
  | nil => intro c h; exact h
  | cons e rest ih =>
      intro c h
      simp only [List.foldl_cons]
      cases hev : logEntryToEvent e with
      | none => exact ih c h
      | some ev =>
          refine ih _ (pendingInv_step c ev h ?_ ?_)
          · intro ts ids hEq
            exact classified_tool_use_ids_ne_nil (hEq ▸ hev)
          · intro hEq
            exact absurd hEq (classified_not_timeout hev).2.2

/-- The guarded timeout injection preserves pending-set consistency. -/
theorem pendingInv_applyTimeouts (parseTime : String → Int) (now : Int)
    (c : StatusState × StatusContext) (h : PendingInv c.2) :
    PendingInv (applyTimeouts parseTime now c).2 := by
  simp only [applyTimeouts]
  split
  · exact pendingInv_step c .IDLE_TIMEOUT h (by simp) (by simp)
  · split
    · exact pendingInv_step c .APPROVAL_TIMEOUT h (by simp) (by simp)
    · split
      · rename_i h1 h2 h3
        exact pendingInv_step c .STALE_TIMEOUT h (by simp) (fun _ => h3.2.1)
      · exact h

/-- Claim C1, as stated, is false: applied to the raw event sequence
USER_PROMPT, ASSISTANT_TOOL_USE ["a"], STALE_TIMEOUT (the last of which the
machine handles in `working` by clearing only the flag, not the id list), the
machine ends with hasPendingToolUse = false while pendingToolIds = ["a"] is
non-empty, violating the claimed equivalence. -/
theorem C1_counterexample :
    ¬ ((replayEvents [.USER_PROMPT "t1", .ASSISTANT_TOOL_USE "t2" ["a"],
          .STALE_TIMEOUT]).2.hasPendingToolUse = true ↔
       (replayEvents [.USER_PROMPT "t1", .ASSISTANT_TOOL_USE "t2" ["a"],
          .STALE_TIMEOUT]).2.pendingToolIds ≠ []) := by decide

/-- Claim C1 (amended): pending-set consistency holds for every event
sequence the derivation engine actually applies: for every list of log
entries and every evaluation time, the context computed by
deriveStatusFromMachine (classifier-derived events followed by the guarded
timeout injection) satisfies hasPendingToolUse = true iff pendingToolIds is
non-empty. -/
theorem C1_pending_set_consistency (parseTime : String → Int) (now : Int)
    (entries : List LogEntry) :
    (deriveStatusFromMachine parseTime now entries).2.hasPendingToolUse = true ↔
    (deriveStatusFromMachine parseTime now entries).2.pendingToolIds ≠ [] := by
  have hinit : PendingInv initialConfig.2 := by
    simp [PendingInv, initialConfig, initialContext]
  exact pendingInv_applyTimeouts parseTime now _
    (pendingInv_replay entries initialConfig hinit)

/-! ## Timeout injection (claim C3) -/

/-- Claim C3: after replaying all records the engine injects at most one
synthetic timeout event, in priority order: IDLE_TIMEOUT whenever elapsed
time since lastActivityAt exceeds 5 minutes; otherwise APPROVAL_TIMEOUT when
in working with a pending tool use and elapsed exceeds 5 seconds; otherwise
STALE_TIMEOUT when in working without pending tool use and elapsed exceeds
60 seconds.  In particular a working session with pending tools whose last
activity is 6 minutes in the past ends up idle. -/
theorem C3_timeout_injection_priority (parseTime : String → Int) (now : Int)
    (s : StatusState) (ctx : StatusContext) :
    (IDLE_TIMEOUT_MS < now - lastActivityTime parseTime ctx →
      applyTimeouts parseTime now (s, ctx) = statusMachineStep (s, ctx) .IDLE_TIMEOUT) ∧
    (¬ IDLE_TIMEOUT_MS < now - lastActivityTime parseTime ctx →
      s = .working → ctx.hasPendingToolUse = true →
      APPROVAL_TIMEOUT_MS < now - lastActivityTime parseTime ctx →
      applyTimeouts parseTime now (s, ctx) = statusMachineStep (s, ctx) .APPROVAL_TIMEOUT) ∧
    (¬ IDLE_TIMEOUT_MS < now - lastActivityTime parseTime ctx →
      s = .working → ctx.hasPendingToolUse = false →
      STALE_TIMEOUT_MS < now - lastActivityTime parseTime ctx →
      applyTimeouts parseTime now (s, ctx) = statusMachineStep (s, ctx) .STALE_TIMEOUT) ∧
    (applyTimeouts parseTime now (s, ctx) = (s, ctx) ∨
      ∃ ev, (ev = StatusEvent.IDLE_TIMEOUT ∨ ev = StatusEvent.APPROVAL_TIMEOUT ∨
          ev = StatusEvent.STALE_TIMEOUT) ∧
        applyTimeouts parseTime now (s, ctx) = statusMachineStep (s, ctx) ev) ∧
    (s = .working → ctx.hasPendingToolUse = true →
      now - lastActivityTime parseTime ctx = 6 * 60 * 1000 →
      (applyTimeouts parseTime now (s, ctx)).1 = .idle) := by
  refine ⟨?_, ?_, ?_, ?_, ?_⟩
  · intro h
    simp only [applyTimeouts]
    rw [if_pos h]
  · intro h hs hp ha
    simp only [applyTimeouts]
    rw [if_neg h, if_pos ⟨hs, hp, ha⟩]
  · intro h hs hp hst
    simp only [applyTimeouts]
    rw [if_neg h, if_neg (by simp [hp]), if_pos ⟨hs, hp, hst⟩]
  · simp only [applyTimeouts]
    split
    · exact Or.inr ⟨.IDLE_TIMEOUT, Or.inl rfl, rfl⟩
    · split
      · exact Or.inr ⟨.APPROVAL_TIMEOUT, Or.inr (Or.inl rfl), rfl⟩
      · split
        · exact Or.inr ⟨.STALE_TIMEOUT, Or.inr (Or.inr rfl), rfl⟩
        · exact Or.inl rfl
  · intro hs hp ht
    have hidle : IDLE_TIMEOUT_MS < now - lastActivityTime parseTime ctx := by
      rw [ht]; decide
    simp only [applyTimeouts]
    rw [if_pos hidle]
    subst hs
    simp [statusMachineStep]

/-- Witness for C3: at elapsed time exactly 6 minutes, in working with a
pending tool, the idle check wins and the resulting state is idle. -/
theorem C3_timeout_injection_priority_witness :
    (applyTimeouts (fun _ => 0) 360000
      (.working, { lastActivityAt := "t", messageCount := 1,
                   hasPendingToolUse := true, pendingToolIds := ["a"] })).1 = .idle := by
  have h := C3_timeout_injection_priority (fun _ => 0) 360000 .working
    { lastActivityAt := "t", messageCount := 1,
      hasPendingToolUse := true, pendingToolIds := ["a"] }
  exact h.2.2.2.2 rfl rfl (by decide)

/-! ## Classifier case analysis (claim C4) -/

/-- Claim C4, as stated, is false on its final clause: a user record with
string content matches none of the enumerated cases (its content is not a
block list, it is not an assistant or a system record), so the claim says it
yields no event; logEntryToEvent classifies it as USER_PROMPT. -/
theorem C4_counterexample :
    logEntryToEvent (.user "t" (.str "fix the bug")) ≠ none := by decide

/-- Claim C4 (amended): the classifier yields at most one event (it returns
an Option) and follows the source's case list: a user record with string
content yields USER_PROMPT; a user record with block-list content containing
at least one tool-result block yields TOOL_RESULT with the referenced
tool-use ids, even when text blocks are also present; with no tool-result
but a text block it yields USER_PROMPT, otherwise nothing; an assistant
record yields ASSISTANT_TOOL_USE with the ids of its non-"Task" tool-use
blocks when that set is non-empty and ASSISTANT_STREAMING otherwise; a
system record yields TURN_END exactly when its subtype is turn_duration or
stop_hook_summary; any other record yields no event. -/
theorem C4_classifier_cases (ts subtype s : String)
    (bs : List UserBlock) (abs : List AssistantBlock) :
    (logEntryToEvent (.user ts (.str s)) = some (.USER_PROMPT ts)) ∧
    (bs.filter isToolResultBlock ≠ [] →
      logEntryToEvent (.user ts (.blocks bs)) =
        some (.TOOL_RESULT ts ((bs.filter isToolResultBlock).map toolUseIdOfUserBlock))) ∧
    (bs.filter isToolResultBlock = [] → hasTextBlock bs = true →
      logEntryToEvent (.user ts (.blocks bs)) = some (.USER_PROMPT ts)) ∧
    (bs.filter isToolResultBlock = [] → hasTextBlock bs = false →
      logEntryToEvent (.user ts (.blocks bs)) = none) ∧
    (abs.filter isNonTaskToolUse ≠ [] →
      logEntryToEvent (.assistant ts abs) =
        some (.ASSISTANT_TOOL_USE ts
          ((abs.filter isNonTaskToolUse).map toolUseIdOfAssistantBlock))) ∧
    (abs.filter isNonTaskToolUse = [] →
      logEntryToEvent (.assistant ts abs) = some (.ASSISTANT_STREAMING ts)) ∧
    (logEntryToEvent (.system ts subtype) = some (.TURN_END ts) ↔
      (subtype = "turn_duration" ∨ subtype = "stop_hook_summary")) ∧
    (¬ (subtype = "turn_duration" ∨ subtype = "stop_hook_summary") →
      logEntryToEvent (.system ts subtype) = none) ∧
    (logEntryToEvent .other = none) := by
  refine ⟨rfl, ?_, ?_, ?_, ?_, ?_, ?_, ?_, rfl⟩
  · intro h
    simp only [logEntryToEvent]
    rw [if_pos]
    simpa [List.length_pos] using h
  · intro h ht
    simp only [logEntryToEvent]
    rw [if_neg (by simp [h]), if_pos ht]
  · intro h ht
    simp only [logEntryToEvent]
    rw [if_neg (by simp [h]), if_neg (by simp [ht])]
  · intro h
    simp only [logEntryToEvent]
    rw [if_pos]
    simpa [List.length_pos] using h
  · intro h
    simp only [logEntryToEvent]
    rw [if_neg (by simp [h])]
  · constructor
    · intro h
      simp only [logEntryToEvent] at h
      by_contra hcond
      rw [if_neg hcond] at h
      exact Option.noConfusion h
    · intro h
      simp only [logEntryToEvent]
      rw [if_pos h]
  · intro h
    simp only [logEntryToEvent]
    rw [if_neg h]

/-- Witness for C4 (amended): concrete instances of the tool-result
precedence case (text block also present) and of the only-Task assistant
case. -/
theorem C4_classifier_cases_witness :
    logEntryToEvent (.user "t" (.blocks [UserBlock.text "x", UserBlock.toolResult "a"])) =
      some (.TOOL_RESULT "t" ["a"]) ∧
    logEntryToEvent (.assistant "t" [AssistantBlock.toolUse "i" "Task"]) =
      some (.ASSISTANT_STREAMING "t") := by
  have h := C4_classifier_cases "t" "other_subtype" "p"
    [UserBlock.text "x", UserBlock.toolResult "a"]
    [AssistantBlock.toolUse "i" "Task"]
  exact ⟨h.2.1 (by decide), h.2.2.2.2.2.1 (by decide)⟩

/-! ## Turn-end transition (claim C6) -/

/-- Claim C6: in working, a TURN_END event moves the machine to
waiting_for_input, sets lastActivityAt to the event timestamp and clears
both hasPendingToolUse and pendingToolIds; the external projection of the
result is waiting with hasPendingToolUse = false.  The final conjunct is
Scenario F end to end: prompt, Edit tool use, matching tool result, then a
system turn_duration record, derived at an evaluation time with no timeout
due. -/
theorem C6_turn_end (ctx : StatusContext) (ts : String) :
    statusMachineStep (.working, ctx) (.TURN_END ts) =
      (.waiting_for_input,
        { lastActivityAt := ts, messageCount := ctx.messageCount,
          hasPendingToolUse := false, pendingToolIds := [] }) ∧
    (machineStatusToResult .waiting_for_input
        { lastActivityAt := ts, messageCount := ctx.messageCount,
          hasPendingToolUse := false, pendingToolIds := [] }).status = .waiting ∧
    (machineStatusToResult .waiting_for_input
        { lastActivityAt := ts, messageCount := ctx.messageCount,
          hasPendingToolUse := false, pendingToolIds := [] }).hasPendingToolUse = false ∧
    deriveStatus (fun _ => 0) 0
      [.user "t1" (.str "fix the bug"),
       .assistant "t2" [.toolUse "id1" "Edit"],
       .user "t3" (.blocks [.toolResult "id1"]),
       .system "t4" "turn_duration"] =
      { status := .waiting, lastRole := .assistant, hasPendingToolUse := false,
        lastActivityAt := "t4", messageCount := 3 } :=
  ⟨rfl, rfl, rfl, by decide⟩

/-! ## Empty-input derivation (claim C9) -/

/-- Claim C9: deriveStatus on an empty entry list returns idle with
messageCount 0, hasPendingToolUse false and empty lastActivityAt, whenever
the evaluation time exceeds the 5-minute idle threshold (the unset
lastActivityAt is treated as epoch time 0, so elapsed time is `now` itself,
and IDLE_TIMEOUT moves the initial waiting_for_input state to idle). -/
theorem C9_empty_entries_idle (parseTime : String → Int) (now : Int)
    (h : IDLE_TIMEOUT_MS < now) :
    deriveStatus parseTime now [] =
      { status := .idle, lastRole := .assistant, hasPendingToolUse := false,
        lastActivityAt := "", messageCount := 0 } := by
  have helapsed : IDLE_TIMEOUT_MS <
      now - lastActivityTime parseTime initialConfig.2 := by
    simpa [lastActivityTime, initialConfig, initialContext] using h
  simp only [deriveStatus, deriveStatusFromMachine, List.foldl_nil, applyTimeouts]
  rw [if_pos helapsed]
  rfl

/-- Witness for C9 at a concrete realistic evaluation time. -/
theorem C9_empty_entries_idle_witness :
    deriveStatus (fun _ => 0) 1000000000 [] =
      { status := .idle, lastRole := .assistant, hasPendingToolUse := false,
        lastActivityAt := "", messageCount := 0 } :=
  C9_empty_entries_idle (fun _ => 0) 1000000000 (by decide)

/-! ## Determinism of the derivation (claim C2) -/

/-- The (state, event) pairs for which statusMachine has a transition. -/
def machineHandles : StatusState → StatusEvent → Bool
  | .idle, .USER_PROMPT _ => true
  | .working, .USER_PROMPT _ => true
  | .working, .ASSISTANT_STREAMING _ => true
  | .working, .ASSISTANT_TOOL_USE _ _ => true
  | .working, .TOOL_RESULT _ _ => true
  | .working, .TURN_END _ => true
  | .working, .APPROVAL_TIMEOUT => true
  | .working, .STALE_TIMEOUT => true
  | .working, .IDLE_TIMEOUT => true
  | .waiting_for_approval, .TOOL_RESULT _ _ => true
  | .waiting_for_approval, .IDLE_TIMEOUT => true
  | .waiting_for_input, .USER_PROMPT _ => true
  | .waiting_for_input, .IDLE_TIMEOUT => true
  | _, _ => false

/-- The transition table of statusMachine as a relation: one constructor per
row, plus the xstate rule that an unhandled event leaves the configuration
unchanged. -/
inductive MachineStep :
    StatusState × StatusContext → StatusEvent → StatusState × StatusContext → Prop where
  | idleUserPrompt (ctx ts) :
      MachineStep (.idle, ctx) (.USER_PROMPT ts)
        (.working, { ctx with lastActivityAt := ts, messageCount := ctx.messageCount + 1 })
  | workingUserPrompt (ctx ts) :
      MachineStep (.working, ctx) (.USER_PROMPT ts)
        (.working, { ctx with
                       lastActivityAt := ts, messageCount := ctx.messageCount + 1,
                       hasPendingToolUse := false, pendingToolIds := [] })
  | workingStreaming (ctx ts) :
      MachineStep (.working, ctx) (.ASSISTANT_STREAMING ts)
        (.working, { ctx with lastActivityAt := ts })
  | workingToolUse (ctx ts ids) :
      MachineStep (.working, ctx) (.ASSISTANT_TOOL_USE ts ids)
        (.working, { ctx with
                       lastActivityAt := ts, messageCount := ctx.messageCount + 1,
                       hasPendingToolUse := true, pendingToolIds := ids })
  | workingToolResult (ctx ts ids) :
      MachineStep (.working, ctx) (.TOOL_RESULT ts ids)
        (.working, { ctx with
                       lastActivityAt := ts, messageCount := ctx.messageCount + 1,
                       pendingToolIds := ctx.pendingToolIds.filter (fun i => !(ids.contains i)),
                       hasPendingToolUse :=
                         decide (0 < (ctx.pendingToolIds.filter
                           (fun i => !(ids.contains i))).length) })
  | workingTurnEnd (ctx ts) :
      MachineStep (.working, ctx) (.TURN_END ts)
        (.waiting_for_input, { ctx with
                                 lastActivityAt := ts, hasPendingToolUse := false,
                                 pendingToolIds := [] })
  | workingApprovalTimeout (ctx) :
      MachineStep (.working, ctx) .APPROVAL_TIMEOUT (.waiting_for_approval, ctx)
  | workingStaleTimeout (ctx) :
      MachineStep (.working, ctx) .STALE_TIMEOUT
        (.waiting_for_input, { ctx with hasPendingToolUse := false })
  | workingIdleTimeout (ctx) :
      MachineStep (.working, ctx) .IDLE_TIMEOUT (.idle, ctx)
  | approvalToolResult (ctx ts ids) :
      MachineStep (.waiting_for_approval, ctx) (.TOOL_RESULT ts ids)
        (.working, { ctx with
                       lastActivityAt := ts, messageCount := ctx.messageCount + 1,
                       pendingToolIds := ctx.pendingToolIds.filter (fun i => !(ids.contains i)),
                       hasPendingToolUse :=
                         decide (0 < (ctx.pendingToolIds.filter
                           (fun i => !(ids.contains i))).length) })
  | approvalIdleTimeout (ctx) :
      MachineStep (.waiting_for_approval, ctx) .IDLE_TIMEOUT (.idle, ctx)
  | inputUserPrompt (ctx ts) :
      MachineStep (.waiting_for_input, ctx) (.USER_PROMPT ts)
        (.working, { ctx with lastActivityAt := ts, messageCount := ctx.messageCount + 1 })
  | inputIdleTimeout (ctx) :
      MachineStep (.waiting_for_input, ctx) .IDLE_TIMEOUT (.idle, ctx)
  | ignored (c ev) (h : machineHandles c.1 ev = false) : MachineStep c ev c

/-- An unhandled event leaves the configuration unchanged in the functional
transition as well. -/
theorem statusMachineStep_unhandled (c : StatusState × StatusContext) (ev : StatusEvent)
    (h : machineHandles c.1 ev = false) : statusMachineStep c ev = c := by
  obtain ⟨s, ctx⟩ := c
  cases s <;> cases ev <;> simp_all [machineHandles, statusMachineStep]

/-- The transition relation coincides with the functional transition. -/
theorem MachineStep_iff (c : StatusState × StatusContext) (ev : StatusEvent)
    (c' : StatusState × StatusContext) :
    MachineStep c ev c' ↔ c' = statusMachineStep c ev := by
  constructor
  · intro h
    cases h with
    | ignored c ev hunh => exact (statusMachineStep_unhandled c ev hunh).symm
    | _ => rfl
  · intro h
    subst h
    obtain ⟨s, ctx⟩ := c
    cases s <;> cases ev <;>
      first
        | exact MachineStep.ignored _ _ rfl
        | exact MachineStep.idleUserPrompt ..
        | exact MachineStep.workingUserPrompt ..
        | exact MachineStep.workingStreaming ..
        | exact MachineStep.workingToolUse ..
        | exact MachineStep.workingToolResult ..
        | exact MachineStep.workingTurnEnd ..
        | exact MachineStep.workingApprovalTimeout ..
        | exact MachineStep.workingStaleTimeout ..
        | exact MachineStep.workingIdleTimeout ..
        | exact MachineStep.approvalToolResult ..
        | exact MachineStep.approvalIdleTimeout ..
        | exact MachineStep.inputUserPrompt ..
        | exact MachineStep.inputIdleTimeout ..

/-- The transition relation is deterministic. -/
theorem MachineStep_deterministic {c : StatusState × StatusContext} {ev : StatusEvent}
    {c₁ c₂ : StatusState × StatusContext}
    (h₁ : MachineStep c ev c₁) (h₂ : MachineStep c ev c₂) : c₁ = c₂ := by
  rw [MachineStep_iff] at h₁ h₂
  rw [h₁, h₂]

/-- Replaying a whole event sequence through the transition relation. -/
inductive Replays :
    StatusState × StatusContext → List StatusEvent → StatusState × StatusContext → Prop where
  | nil (c) : Replays c [] c
  | cons {c c' c'' : StatusState × StatusContext} {e : StatusEvent} {es : List StatusEvent} :
      MachineStep c e c' → Replays c' es c'' → Replays c (e :: es) c''

/-- A replay of an event sequence reaches exactly the left fold of the
functional transition. -/
theorem Replays_iff (es : List StatusEvent) :
    ∀ c c' : StatusState × StatusContext,
      Replays c es c' ↔ c' = es.foldl statusMachineStep c := by
  induction es with
  | nil =>
      intro c c'
      constructor
      · intro h; cases h; rfl
      · intro h; subst h; exact Replays.nil _
  | cons e rest ih =>
      intro c c'
      constructor
      · intro h
        cases h with
        | cons hstep hrest =>
            rw [MachineStep_iff] at hstep
            subst hstep
            simpa [List.foldl_cons] using (ih _ c').mp hrest
      · intro h
        subst h
        exact Replays.cons ((MachineStep_iff ..).mpr rfl)
          ((ih _ _).mpr (by simp [List.foldl_cons]))

/-- One full evaluation of the derivation engine, as a relation: replay the
classified record stream from the initial configuration through the
transition relation, then apply the timeout check once. -/
def DeriveRun (parseTime : String → Int) (now : Int) (entries : List LogEntry)
    (result : StatusState × StatusContext) : Prop :=
  ∃ mid, Replays initialConfig (entries.filterMap logEntryToEvent) mid ∧
    result = applyTimeouts parseTime now mid

/-- Folding entries with inline classification equals folding the classified
event stream. -/
theorem foldl_classified_eq_filterMap (entries : List LogEntry) :
    ∀ c : StatusState × StatusContext,
      entries.foldl (fun c entry =>
        match logEntryToEvent entry with
        | some event => statusMachineStep c event
        | none => c) c =
      (entries.filterMap logEntryToEvent).foldl statusMachineStep c := by
  induction entries with
  | nil => intro c; rfl
  | cons e rest ih =>
      intro c
      cases hev : logEntryToEvent e <;>
        simp [List.filterMap_cons, hev, ih]

/-- Every evaluation run computes deriveStatusFromMachine's answer. -/
theorem DeriveRun_eq (parseTime : String → Int) (now : Int) (entries : List LogEntry)
    (result : StatusState × StatusContext) (h : DeriveRun parseTime now entries result) :
    result = deriveStatusFromMachine parseTime now entries := by
  obtain ⟨mid, hrep, hres⟩ := h
  rw [Replays_iff] at hrep
  subst hrep
  subst hres
  simp only [deriveStatusFromMachine, foldl_classified_eq_filterMap]

/-- Claim C2, as stated, is false in its second half: the derived status does
depend on when the evaluation runs, because the engine reads the wall clock
for the timeout injection.  On the empty record list, evaluating at epoch
time 0 yields waiting_for_input while evaluating at 400000 ms yields idle
(the 5-minute idle timeout fires against the unset lastActivityAt). -/
theorem C2_counterexample :
    deriveStatusFromMachine (fun _ => 0) 0 [] ≠
      deriveStatusFromMachine (fun _ => 0) 400000 [] := by decide

/-- Claim C2 (amended): the derivation is deterministic given the log content
and the evaluation time: any two replays of the same record sequence through
the classifier and the machine transition relation, with the timeout check
applied at the same evaluation time, end in the same (status, context) pair,
namely the one deriveStatusFromMachine computes. -/
theorem C2_determinism (parseTime : String → Int) (now : Int)
    (entries : List LogEntry) (c₁ c₂ : StatusState × StatusContext)
    (h₁ : DeriveRun parseTime now entries c₁)
    (h₂ : DeriveRun parseTime now entries c₂) :
    c₁ = c₂ ∧ c₁ = deriveStatusFromMachine parseTime now entries := by
  have e₁ := DeriveRun_eq parseTime now entries c₁ h₁
  have e₂ := DeriveRun_eq parseTime now entries c₂ h₂
  exact ⟨e₁.trans e₂.symm, e₁⟩

/-- Witness for C2 (amended): two identical concrete runs on the empty log at
evaluation time 0 agree with the computed derivation. -/
theorem C2_determinism_witness :
    (StatusState.waiting_for_input, initialContext) =
      deriveStatusFromMachine (fun _ => 0) 0 [] := by
  have hrun : DeriveRun (fun _ => 0) 0 []
      (StatusState.waiting_for_input, initialContext) :=
    ⟨initialConfig, Replays.nil initialConfig, by decide⟩
  exact (C2_determinism (fun _ => 0) 0 [] _ _ hrun hrun).2

/-! ## Watcher model (watcher.ts) -/

/-- Association-list lookup, modelling Map.get. -/
def mapLookup {α : Type} (m : List (String × α)) (k : String) : Option α :=
  (m.find? (fun p => p.1 == k)).map (fun p => p.2)

/-- Association-list insert-or-replace, modelling Map.set. -/
def mapInsert {α : Type} (m : List (String × α)) (k : String) (v : α) :
    List (String × α) :=
  (k, v) :: m.filter (fun p => p.1 != k)

/-- Association-list removal, modelling Map.delete. -/
def mapErase {α : Type} (m : List (String × α)) (k : String) : List (String × α) :=
  m.filter (fun p => p.1 != k)

theorem mapLookup_mapInsert_self {α : Type} (m : List (String × α)) (k : String) (v : α) :
    mapLookup (mapInsert m k v) k = some v := by
  simp [mapLookup, mapInsert, List.find?]

theorem mapLookup_mapErase_self {α : Type} (m : List (String × α)) (k : String) :
    mapLookup (mapErase m k) k = none := by
  have h : (List.filter (fun p => p.1 != k) m).find? (fun p => p.1 == k) = none := by
    rw [List.find?_eq_none]
    intro x hx
    rw [List.mem_filter] at hx
    simpa using hx.2
  simp [mapLookup, mapErase, h]

/-- PendingPermission from watcher.ts: the parsed content of a
pending-permission signal file (the free-form tool_input payload is not
relevant to any observable behaviour modelled here). -/
structure PendingPermission where
  session_id : String
  tool_name : String
  pending_since : String
  deriving DecidableEq

/-- SessionMetadata (types.ts shape, as used by watcher.ts). -/
structure SessionMetadata where
  sessionId : String
  cwd : String
  gitBranch : Option String
  originalPrompt : String
  startedAt : String
  deriving DecidableEq

/-- GitInfo from git.ts, as consumed by watcher.ts. -/
structure GitInfo where
  repoUrl : Option String
  repoId : Option String
  branch : Option String
  isGitRepo : Bool
  deriving DecidableEq

/-- SessionState from watcher.ts. -/
structure SessionState where
  sessionId : String
  filepath : String
  encodedDir : String
  cwd : String
  gitBranch : Option String
  originalPrompt : String
  startedAt : String
  status : StatusResult
  entries : List LogEntry
  bytePosition : Nat
  gitRepoUrl : Option String
  gitRepoId : Option String
  branchChanged : Bool
  pendingPermission : Option PendingPermission
  deriving DecidableEq

/-- SessionEvent from watcher.ts. -/
inductive SessionEvent where
  | created (session : SessionState)
  | updated (session : SessionState) (previousStatus : Option StatusResult)
  | deleted (session : SessionState)
  deriving DecidableEq

/-- The watcher's mutable maps: sessions and pendingPermissions. -/
structure WatcherState where
  sessions : List (String × SessionState)
  pendingPermissions : List (String × PendingPermission)
  deriving DecidableEq

/-- The pending-permission status override of watcher.ts (handleFile and
handlePendingPermission spread the derived status and force
status := waiting, hasPendingToolUse := true). -/
def applyOverlay (r : StatusResult) : StatusResult :=
  { r with status := .waiting, hasPendingToolUse := true }

/-- The tool-result scan of handleFile: a user entry whose array content
contains at least one tool_result block. -/
def entryHasToolResult : LogEntry → Bool
  | .user _ (.blocks bs) => bs.any isToolResultBlock
  | _ => false

/-- handlePendingPermission from watcher.ts: record the signal and, when the
session exists, override its status and emit an updated event. -/
def handlePendingPermission (w : WatcherState) (permission : PendingPermission) :
    WatcherState × Option SessionEvent :=
  let sessionId := permission.session_id
  if sessionId = "" then (w, none)
  else
    let pendingPermissions' := mapInsert w.pendingPermissions sessionId permission
    match mapLookup w.sessions sessionId with
    | some session =>
        let previousStatus := session.status
        let session' := { session with
                            pendingPermission := some permission,
                            status := applyOverlay session.status }
        ({ sessions := mapInsert w.sessions sessionId session',
           pendingPermissions := pendingPermissions' },
         some (.updated session' (some previousStatus)))
    | none => ({ w with pendingPermissions := pendingPermissions' }, none)

/-- handlePendingPermissionRemoved from watcher.ts: drop the signal and, when
the session carried the override, revert its status to the machine-derived
value and emit an updated event. -/
def handlePendingPermissionRemoved (parseTime : String → Int) (now : Int)
    (w : WatcherState) (sessionId : String) : WatcherState × Option SessionEvent :=
  if sessionId = "" then (w, none)
  else
    let pendingPermissions' := mapErase w.pendingPermissions sessionId
    match mapLookup w.sessions sessionId with
    | some session =>
        match session.pendingPermission with
        | some _ =>
            let previousStatus := session.status
            let session' := { session with
                                pendingPermission := none,
                                status := deriveStatus parseTime now session.entries }
            ({ sessions := mapInsert w.sessions sessionId session',
               pendingPermissions := pendingPermissions' },
             some (.updated session' (some previousStatus)))
        | none => ({ w with pendingPermissions := pendingPermissions' }, none)
    | none => ({ w with pendingPermissions := pendingPermissions' }, none)

/-- handleFile from watcher.ts, as a pure transition on the watcher state.
The outcomes of the filesystem effects are arguments: `newEntries` and
`newPosition` are what tailJSONL returned for the session's stored byte
offset, `extractMetadata` abstracts the metadata extraction of parser.ts
(consulted only for new sessions) and `gitInfoCached` abstracts the cached
git lookup of git.ts. -/
def handleFile (extractMetadata : List LogEntry → Option SessionMetadata)
    (gitInfoCached : String → GitInfo) (parseTime : String → Int) (now : Int)
    (w : WatcherState) (filepath sessionId encodedDir : String)
    (newEntries : List LogEntry) (newPosition : Nat) :
    WatcherState × Option SessionEvent :=
  let existingSession := mapLookup w.sessions sessionId
  if newEntries.isEmpty && existingSession.isSome then (w, none)
  else
    let allEntries :=
      match existingSession with
      | some s => s.entries ++ newEntries
      | none => newEntries
    let metaGit : Option (SessionMetadata × GitInfo) :=
      match existingSession with
      | some s =>
          some ({ sessionId := s.sessionId, cwd := s.cwd, gitBranch := s.gitBranch,
                  originalPrompt := s.originalPrompt, startedAt := s.startedAt },
                { repoUrl := s.gitRepoUrl, repoId := s.gitRepoId, branch := s.gitBranch,
                  isGitRepo := s.gitRepoUrl.isSome || s.gitBranch.isSome })
      | none => (extractMetadata allEntries).map (fun m => (m, gitInfoCached m.cwd))
    match metaGit with
    | none => (w, none)
    | some (metadata, gitInfoCachedHere) =>
        let refreshed :=
          match existingSession with
          | some s =>
              let currentBranch := gitInfoCached metadata.cwd
              if currentBranch.branch ≠ s.gitBranch then (currentBranch, true)
              else (gitInfoCachedHere, false)
          | none => (gitInfoCachedHere, false)
        let gitInfo := refreshed.1
        let branchChanged := refreshed.2
        let hasToolResult := newEntries.any entryHasToolResult
        let pendingPermissions' :=
          if hasToolResult && (mapLookup w.pendingPermissions sessionId).isSome then
            mapErase w.pendingPermissions sessionId
          else w.pendingPermissions
        let statusDerived := deriveStatus parseTime now allEntries
        let previousStatus := existingSession.map (fun s => s.status)
        let pendingPermission := mapLookup pendingPermissions' sessionId
        let status :=
          match pendingPermission with
          | some _ => applyOverlay statusDerived
          | none => statusDerived
        let session : SessionState :=
          { sessionId := sessionId, filepath := filepath, encodedDir := encodedDir,
            cwd := metadata.cwd,
            gitBranch :=
              match gitInfo.branch with
              | some b => if b ≠ "" then some b else metadata.gitBranch
              | none => metadata.gitBranch,
            originalPrompt := metadata.originalPrompt,
            startedAt := metadata.startedAt,
            status := status, entries := allEntries, bytePosition := newPosition,
            gitRepoUrl := gitInfo.repoUrl, gitRepoId := gitInfo.repoId,
            branchChanged := branchChanged, pendingPermission := pendingPermission }
        let sessions' := mapInsert w.sessions sessionId session
        let isNew := existingSession.isNone
        let hasStatusChange := statusChanged previousStatus status
        let hasNewMessages :=
          match existingSession with
          | some s => decide (s.status.messageCount < status.messageCount)
          | none => false
        let event : Option SessionEvent :=
          if isNew then some (.created session)
          else if hasStatusChange || hasNewMessages || branchChanged then
            some (.updated session previousStatus)
          else none
        ({ sessions := sessions', pendingPermissions := pendingPermissions' }, event)

/-! ## Overlay frame condition (claim C10) -/

/-- Claim C10: applying the pending-permission overlay to a derived
StatusResult forces status := waiting and hasPendingToolUse := true and
changes nothing else: lastActivityAt, messageCount and lastRole keep their
machine-derived values. -/
theorem C10_overlay_frame (r : StatusResult) :
    (applyOverlay r).status = .waiting ∧
    (applyOverlay r).hasPendingToolUse = true ∧
    (applyOverlay r).lastActivityAt = r.lastActivityAt ∧
    (applyOverlay r).messageCount = r.messageCount ∧
    (applyOverlay r).lastRole = r.lastRole :=
  ⟨rfl, rfl, rfl, rfl, rfl⟩

/-! ## Permission overlay precedence and clearing (claim C5) -/

/-- Claim C5: a present pending-permission signal forces the published
status to waiting with hasPendingToolUse = true regardless of the
machine-derived state, both on a file pass (a) and on signal arrival (b);
the overlay is cleared when a TOOL_RESULT block is observed in the new log
records (c) or when the signal file is removed (d), and in both cases the
session's status reverts to the machine-derived value. -/
theorem C5_permission_overlay (extractMetadata : List LogEntry → Option SessionMetadata)
    (gitInfoCached : String → GitInfo) (parseTime : String → Int) (now : Int)
    (w : WatcherState) (filepath sessionId encodedDir : String)
    (newEntries : List LogEntry) (newPosition : Nat)
    (s : SessionState) (perm : PendingPermission) :
    (mapLookup w.sessions sessionId = some s →
     mapLookup w.pendingPermissions sessionId = some perm →
     newEntries ≠ [] → newEntries.any entryHasToolResult = false →
     ∃ s', mapLookup (handleFile extractMetadata gitInfoCached parseTime now w
              filepath sessionId encodedDir newEntries newPosition).1.sessions sessionId
            = some s' ∧
       s'.status.status = .waiting ∧ s'.status.hasPendingToolUse = true ∧
       s'.pendingPermission = some perm) ∧
    (perm.session_id ≠ "" → mapLookup w.sessions perm.session_id = some s →
     ∃ s', (handlePendingPermission w perm).2 = some (.updated s' (some s.status)) ∧
       mapLookup (handlePendingPermission w perm).1.sessions perm.session_id = some s' ∧
       s'.status.status = .waiting ∧ s'.status.hasPendingToolUse = true) ∧
    (mapLookup w.sessions sessionId = some s →
     mapLookup w.pendingPermissions sessionId = some perm →
     newEntries.any entryHasToolResult = true →
     mapLookup (handleFile extractMetadata gitInfoCached parseTime now w
         filepath sessionId encodedDir newEntries newPosition).1.pendingPermissions sessionId
       = none ∧
     ∃ s', mapLookup (handleFile extractMetadata gitInfoCached parseTime now w
              filepath sessionId encodedDir newEntries newPosition).1.sessions sessionId
            = some s' ∧
       s'.status = deriveStatus parseTime now (s.entries ++ newEntries) ∧
       s'.pendingPermission = none) ∧
    (sessionId ≠ "" → mapLookup w.sessions sessionId = some s →
     s.pendingPermission.isSome = true →
     mapLookup (handlePendingPermissionRemoved parseTime now w
         sessionId).1.pendingPermissions sessionId = none ∧
     ∃ s', mapLookup (handlePendingPermissionRemoved parseTime now w
              sessionId).1.sessions sessionId = some s' ∧
       s'.status = deriveStatus parseTime now s.entries ∧
       s'.pendingPermission = none) := by
  refine ⟨?_, ?_, ?_, ?_⟩
  · intro h1 h2 h3 h4
    have hne : newEntries.isEmpty = false := by
      cases newEntries with
      | nil => exact absurd rfl h3
      | cons a l => rfl
    simp only [handleFile, h1, h2, h4, hne, Option.isSome_some, Bool.and_true,
      Bool.false_and, Bool.and_self, if_false, Bool.false_eq_true, ite_false]
    exact ⟨_, mapLookup_mapInsert_self _ _ _, rfl, rfl, rfl⟩
  · intro h1 h2
    simp only [handlePendingPermission, h2, if_neg h1]
    exact ⟨_, rfl, mapLookup_mapInsert_self _ _ _, rfl, rfl⟩
  · intro h1 h2 h3
    have hne : newEntries.isEmpty = false := by
      cases newEntries with
      | nil => simp [List.any_nil] at h3
      | cons a l => rfl
    simp only [handleFile, h1, h2, h3, hne, Option.isSome_some, Bool.and_true,
      Bool.false_and, Bool.and_self, if_false, Bool.false_eq_true, ite_false,
      Bool.true_and, ite_true, mapLookup_mapErase_self]
    exact ⟨trivial, _, mapLookup_mapInsert_self _ _ _, rfl, rfl⟩
  · intro h1 h2 h3
    obtain ⟨q, hq⟩ := Option.isSome_iff_exists.mp h3
    simp only [handlePendingPermissionRemoved, h2, hq, if_neg h1,
      mapLookup_mapErase_self]
    exact ⟨trivial, _, mapLookup_mapInsert_self _ _ _, rfl, rfl⟩

/-- A concrete git info value for witnesses. -/
def sampleGitInfo : GitInfo :=
  { repoUrl := none, repoId := none, branch := none, isGitRepo := false }

/-- A concrete pending permission for witnesses. -/
def samplePermission : PendingPermission :=
  { session_id := "sid", tool_name := "Edit", pending_since := "t1" }

/-- A concrete session for witnesses, as stored after one user prompt. -/
def sampleSession : SessionState :=
  { sessionId := "sid", filepath := "f", encodedDir := "e", cwd := "w",
    gitBranch := none, originalPrompt := "fix the bug", startedAt := "t1",
    status := { status := .working, lastRole := .assistant, hasPendingToolUse := false,
                lastActivityAt := "t1", messageCount := 1 },
    entries := [.user "t1" (.str "fix the bug")], bytePosition := 10,
    gitRepoUrl := none, gitRepoId := none, branchChanged := false,
    pendingPermission := none }

/-- A concrete watcher state with one session and one pending signal. -/
def sampleWatcher : WatcherState :=
  { sessions := [("sid", sampleSession)],
    pendingPermissions := [("sid", samplePermission)] }

/-- A variant of the sample watcher whose session carries the overlay. -/
def sampleWatcherOverlaid : WatcherState :=
  { sessions := [("sid", { sampleSession with pendingPermission := some samplePermission })],
    pendingPermissions := [("sid", samplePermission)] }

/-- Witness for C5: concrete instances of all four conjuncts — overlay
precedence on a file pass and on signal arrival, clearing via an observed
tool result, and clearing via signal-file removal. -/
theorem C5_permission_overlay_witness :
    (∃ s', mapLookup (handleFile (fun _ => none) (fun _ => sampleGitInfo) (fun _ => 0) 0
         sampleWatcher "f" "sid" "e" [.assistant "t2" []] 20).1.sessions "sid" = some s' ∧
       s'.status.status = .waiting ∧ s'.status.hasPendingToolUse = true ∧
       s'.pendingPermission = some samplePermission) ∧
    (∃ s', (handlePendingPermission sampleWatcher samplePermission).2 =
         some (.updated s' (some sampleSession.status)) ∧
       mapLookup (handlePendingPermission sampleWatcher samplePermission).1.sessions "sid"
         = some s' ∧
       s'.status.status = .waiting ∧ s'.status.hasPendingToolUse = true) ∧
    (mapLookup (handleFile (fun _ => none) (fun _ => sampleGitInfo) (fun _ => 0) 0
         sampleWatcher "f" "sid" "e" [.user "t3" (.blocks [.toolResult "id1"])]
         30).1.pendingPermissions "sid" = none ∧
     ∃ s', mapLookup (handleFile (fun _ => none) (fun _ => sampleGitInfo) (fun _ => 0) 0
           sampleWatcher "f" "sid" "e" [.user "t3" (.blocks [.toolResult "id1"])]
           30).1.sessions "sid" = some s' ∧
       s'.status = deriveStatus (fun _ => 0) 0
         (sampleSession.entries ++ [.user "t3" (.blocks [.toolResult "id1"])]) ∧
       s'.pendingPermission = none) ∧
    (mapLookup (handlePendingPermissionRemoved (fun _ => 0) 0 sampleWatcherOverlaid
         "sid").1.pendingPermissions "sid" = none ∧
     ∃ s', mapLookup (handlePendingPermissionRemoved (fun _ => 0) 0 sampleWatcherOverlaid
           "sid").1.sessions "sid" = some s' ∧
       s'.status = deriveStatus (fun _ => 0) 0 sampleSession.entries ∧
       s'.pendingPermission = none) := by
  refine ⟨?_, ?_, ?_, ?_⟩
  · exact (C5_permission_overlay (fun _ => none) (fun _ => sampleGitInfo) (fun _ => 0) 0
      sampleWatcher "f" "sid" "e" [.assistant "t2" []] 20 sampleSession
      samplePermission).1 (by decide) (by decide) (by decide) (by decide)
  · exact (C5_permission_overlay (fun _ => none) (fun _ => sampleGitInfo) (fun _ => 0) 0
      sampleWatcher "f" "sid" "e" [] 0 sampleSession samplePermission).2.1
      (by decide) (by decide)
  · exact (C5_permission_overlay (fun _ => none) (fun _ => sampleGitInfo) (fun _ => 0) 0
      sampleWatcher "f" "sid" "e" [.user "t3" (.blocks [.toolResult "id1"])] 30
      sampleSession samplePermission).2.2.1 (by decide) (by decide) (by decide)
  · exact (C5_permission_overlay (fun _ => none) (fun _ => sampleGitInfo) (fun _ => 0) 0
      sampleWatcherOverlaid "f" "sid" "e" [] 0
      { sampleSession with pendingPermission := some samplePermission }
      samplePermission).2.2.2 (by decide) (by decide) (by decide)

/-! ## Notification suppression (claim C8) -/

/-- A guarded event is published exactly when its guard holds. -/
theorem ite_some_eq_iff {α : Type} (c : Bool) (u : α) :
    ((if c = true then some u else none) = some u) ↔ c = true := by
  cases c <;> simp

/-- A guarded updated event is never a created event. -/
theorem updated_ite_ne_created (c : Bool) (s' : SessionState) (p : Option StatusResult)
    (x : SessionState) :
    (if c = true then some (SessionEvent.updated s' p) else none) ≠
      some (SessionEvent.created x) := by
  cases c <;> simp

/-- Claim C8: on a file pass for an existing session with zero new records
nothing happens at all (i); with new records, an updated event is published
iff the derived status changed, the message count increased or the branch
changed, and never a created event (ii); a created event is published
exactly when the session is new, i.e. always for a new session once its
metadata can be extracted (iii) and never otherwise, while a new session
without extractable metadata publishes nothing and changes nothing (iv). -/
theorem C8_notification_suppression (extractMetadata : List LogEntry → Option SessionMetadata)
    (gitInfoCached : String → GitInfo) (parseTime : String → Int) (now : Int)
    (w : WatcherState) (filepath sessionId encodedDir : String)
    (newEntries : List LogEntry) (newPosition : Nat)
    (s : SessionState) (m : SessionMetadata) :
    (mapLookup w.sessions sessionId = some s → newEntries = [] →
      handleFile extractMetadata gitInfoCached parseTime now w
        filepath sessionId encodedDir newEntries newPosition = (w, none)) ∧
    (mapLookup w.sessions sessionId = some s → newEntries ≠ [] →
      ∃ s', mapLookup (handleFile extractMetadata gitInfoCached parseTime now w
              filepath sessionId encodedDir newEntries newPosition).1.sessions sessionId
            = some s' ∧
        ((handleFile extractMetadata gitInfoCached parseTime now w
            filepath sessionId encodedDir newEntries newPosition).2 =
              some (.updated s' (some s.status)) ↔
          (statusChanged (some s.status) s'.status = true ∨
           s.status.messageCount < s'.status.messageCount ∨
           s'.branchChanged = true)) ∧
        (∀ x, (handleFile extractMetadata gitInfoCached parseTime now w
            filepath sessionId encodedDir newEntries newPosition).2 ≠
              some (.created x))) ∧
    (mapLookup w.sessions sessionId = none → extractMetadata newEntries = some m →
      ∃ s', (handleFile extractMetadata gitInfoCached parseTime now w
            filepath sessionId encodedDir newEntries newPosition).2 = some (.created s') ∧
        mapLookup (handleFile extractMetadata gitInfoCached parseTime now w
            filepath sessionId encodedDir newEntries newPosition).1.sessions sessionId
          = some s') ∧
    (mapLookup w.sessions sessionId = none → extractMetadata newEntries = none →
      handleFile extractMetadata gitInfoCached parseTime now w
        filepath sessionId encodedDir newEntries newPosition = (w, none)) := by
  refine ⟨?_, ?_, ?_, ?_⟩
  · intro hs hnil
    subst hnil
    simp [handleFile, hs]
  · intro hs hne
    have hEmp : newEntries.isEmpty = false := by
      cases newEntries with
      | nil => exact absurd rfl hne
      | cons a l => rfl
    simp only [handleFile, hs, hEmp, Option.isSome_some, Bool.and_true, Bool.false_and,
      if_false, Bool.false_eq_true, ite_false, Option.map_some', Option.map_some,
      Option.isNone_some]
    refine ⟨_, mapLookup_mapInsert_self _ _ _, ?_, ?_⟩
    · rw [ite_some_eq_iff]
      simp only [Bool.or_eq_true, decide_eq_true_eq]
      exact or_assoc
    · intro x
      exact updated_ite_ne_created _ _ _ x
  · intro hs hmeta
    simp only [handleFile, hs, hmeta, Option.isSome_none, Bool.and_false, if_false,
      Bool.false_eq_true, ite_false, Option.map_some', Option.map_some,
      Option.isNone_none, if_true]
    exact ⟨_, rfl, mapLookup_mapInsert_self _ _ _⟩
  · intro hs hmeta
    simp [handleFile, hs, hmeta]

/-- A concrete session metadata value for witnesses. -/
def sampleMetadata : SessionMetadata :=
  { sessionId := "sid", cwd := "w", gitBranch := none,
    originalPrompt := "fix the bug", startedAt := "t1" }

/-- Witness for C8: a no-op pass on an existing session with zero new
records, a created event for a new session with extractable metadata, and a
silent pass for a new session without metadata. -/
theorem C8_notification_suppression_witness :
    handleFile (fun _ => none) (fun _ => sampleGitInfo) (fun _ => 0) 0
      sampleWatcher "f" "sid" "e" [] 0 = (sampleWatcher, none) ∧
    (∃ s', (handleFile (fun _ => some sampleMetadata) (fun _ => sampleGitInfo) (fun _ => 0) 0
        ⟨[], []⟩ "f" "sid" "e" [.user "t1" (.str "fix the bug")] 10).2 =
          some (.created s') ∧
      mapLookup (handleFile (fun _ => some sampleMetadata) (fun _ => sampleGitInfo)
        (fun _ => 0) 0 ⟨[], []⟩ "f" "sid" "e"
        [.user "t1" (.str "fix the bug")] 10).1.sessions "sid" = some s') ∧
    handleFile (fun _ => none) (fun _ => sampleGitInfo) (fun _ => 0) 0
      ⟨[], []⟩ "f" "sid" "e" [.user "t1" (.str "fix the bug")] 10 = (⟨[], []⟩, none) := by
  refine ⟨?_, ?_, ?_⟩
  · exact (C8_notification_suppression (fun _ => none) (fun _ => sampleGitInfo) (fun _ => 0) 0
      sampleWatcher "f" "sid" "e" [] 0 sampleSession sampleMetadata).1 (by decide) rfl
  · exact (C8_notification_suppression (fun _ => some sampleMetadata) (fun _ => sampleGitInfo)
      (fun _ => 0) 0 ⟨[], []⟩ "f" "sid" "e" [.user "t1" (.str "fix the bug")] 10
      sampleSession sampleMetadata).2.2.1 rfl rfl
  · exact (C8_notification_suppression (fun _ => none) (fun _ => sampleGitInfo)
      (fun _ => 0) 0 ⟨[], []⟩ "f" "sid" "e" [.user "t1" (.str "fix the bug")] 10
      sampleSession sampleMetadata).2.2.2 rfl rfl

/-! ## Incremental log reader (claim C7) -/

/-- The chars of a read region up to and including its last record delimiter
(newline): the newline-terminated complete part of the region.  A trailing
segment with no closing newline is a partial write and is excluded. -/
def completePart (s : List Char) : List Char :=
  (s.reverse.dropWhile (fun c => c != '\n')).reverse

/-- The trailing partial segment of a read region: everything after its last
newline. -/
def tailPart (s : List Char) : List Char :=
  (s.reverse.takeWhile (fun c => c != '\n')).reverse

/-- Split a newline-terminated region into its lines (the accumulator holds
the current line reversed; a trailing segment without a closing newline is
dropped). -/
def linesAux : List Char → List Char → List (List Char)
  | _, [] => []
  | acc, c :: cs =>
      if c = '\n' then acc.reverse :: linesAux [] cs
      else linesAux (c :: acc) cs

/-- The newline-delimited lines of a region. -/
def linesOf (s : List Char) : List (List Char) := linesAux [] s

/-- Modelled from the spec: tailJSONL of parser.ts, which is not among the
available sources (watcher.ts only calls it).  Per the specification of the
Log Reader, given the file content and a starting byte offset it returns
the newly complete newline-delimited records appended since that offset
plus the new offset to resume from; the trailing partial write (content
after the last delimiter) is not consumed and the offset only advances past
fully parsed records; records that fail to parse are skipped without
blocking subsequent records.  `parse` abstracts per-line JSON parsing and
validation, returning none for a malformed line. -/
def tailJSONL (parse : List Char → Option LogEntry) (content : List Char)
    (fromByte : Nat) : List LogEntry × Nat :=
  let rest := content.drop fromByte
  let complete := completePart rest
  ((linesOf complete).filterMap parse, fromByte + complete.length)

/-- An append-only growth chain: each content snapshot extends the previous
one. -/
def Growing : List Char → List (List Char) → Prop
  | _, [] => True
  | c, d :: ds => (∃ t, d = c ++ t) ∧ Growing d ds

/-- A sequence of incremental reads over successive content snapshots,
starting from offset 0, concatenating the returned record batches and
threading the returned offset. -/
def readAll (parse : List Char → Option LogEntry) (contents : List (List Char)) :
    List LogEntry × Nat :=
  contents.foldl
    (fun acc content =>
      let r := tailJSONL parse content acc.2
      (acc.1 ++ r.1, r.2)) ([], 0)

theorem completePart_append_tailPart (s : List Char) :
    completePart s ++ tailPart s = s := by
  rw [completePart, tailPart, ← List.reverse_append,
    List.takeWhile_append_dropWhile, List.reverse_reverse]

/-- dropWhile yields nil or starts with an element refuting the predicate. -/
theorem dropWhile_nil_or_head_false (p : Char → Bool) (l : List Char) :
    l.dropWhile p = [] ∨
      ∃ c cs, l.dropWhile p = c :: cs ∧ p c = false := by
  induction l with
  | nil => exact Or.inl rfl
  | cons c cs ih =>
      by_cases h : p c
      · simpa [List.dropWhile, h] using ih
      · exact Or.inr ⟨c, cs, by simp [List.dropWhile, h], by simpa using h⟩

/-- The complete part of a region is empty or ends with a newline. -/
theorem completePart_ends (s : List Char) :
    completePart s = [] ∨ ∃ t, completePart s = t ++ ['\n'] := by
  rcases dropWhile_nil_or_head_false (fun c => c != '\n') s.reverse with h | ⟨c, cs, h, hc⟩
  · exact Or.inl (by simp [completePart, h])
  · have hcn : c = '\n' := by simpa using hc
    exact Or.inr ⟨cs.reverse, by simp [completePart, h, hcn]⟩

/-- Appending to a region whose first part is newline-terminated extends its
complete part on the right. -/
theorem completePart_append (A B : List Char)
    (hA : A = [] ∨ ∃ t, A = t ++ ['\n']) :
    completePart (A ++ B) = A ++ completePart B := by
  rcases hA with h | ⟨t, h⟩
  · simp [h]
  · subst h
    rw [completePart, completePart, List.reverse_append, List.dropWhile_append]
    by_cases hB : (B.reverse.dropWhile (fun c => c != '\n')).isEmpty
    · rw [if_pos hB]
      rw [List.isEmpty_iff] at hB
      rw [hB]
      simp [List.dropWhile]
    · rw [if_neg hB]
      simp

/-- Splitting lines distributes over appending after a newline-terminated
region, whatever line prefix is being accumulated. -/
theorem linesAux_append (t : List Char) :
    ∀ (acc B : List Char),
      linesAux acc ((t ++ ['\n']) ++ B) = linesAux acc (t ++ ['\n']) ++ linesAux [] B := by
  induction t with
  | nil =>
      intro acc B
      show linesAux acc ('\n' :: B) = linesAux acc ['\n'] ++ linesAux [] B
      simp [linesAux]
  | cons c t' ih =>
      intro acc B
      show linesAux acc (c :: ((t' ++ ['\n']) ++ B)) =
        linesAux acc (c :: (t' ++ ['\n'])) ++ linesAux [] B
      by_cases h : c = '\n'
      · simp only [linesAux, if_pos h]
        rw [ih]
        simp
      · simp only [linesAux, if_neg h]
        exact ih (c :: acc) B

/-- Splitting lines distributes over appending after a region that is empty
or newline-terminated. -/
theorem linesOf_append (A B : List Char) (hA : A = [] ∨ ∃ t, A = t ++ ['\n']) :
    linesOf (A ++ B) = linesOf A ++ linesOf B := by
  rcases hA with h | ⟨t, h⟩
  · subst h; simp [linesOf, linesAux]
  · subst h; exact linesAux_append t [] B

/-- Loop invariant of a sequence of incremental reads over a growth chain:
starting from the records and offset of a fully consumed snapshot `c`, the
fold ends with the records and offset of the last snapshot fully consumed. -/
theorem readAll_loop (parse : List Char → Option LogEntry) :
    ∀ (cs : List (List Char)) (c : List Char),
      Growing c cs →
      cs.foldl (fun acc content =>
          let r := tailJSONL parse content acc.2
          (acc.1 ++ r.1, r.2))
        ((linesOf (completePart c)).filterMap parse, (completePart c).length) =
      ((linesOf (completePart (cs.getLastD c))).filterMap parse,
        (completePart (cs.getLastD c)).length)
  | [], c, _ => rfl
  | d :: ds, c, hg => by
      obtain ⟨⟨t, hd⟩, hg'⟩ := hg
      have hsplit : d = completePart c ++ (tailPart c ++ t) := by
        rw [← List.append_assoc, completePart_append_tailPart, hd]
      have hdrop : d.drop (completePart c).length = tailPart c ++ t := by
        conv_lhs => rw [hsplit]
        exact List.drop_left _ _
      have hcomplete : completePart d = completePart c ++ completePart (tailPart c ++ t) := by
        conv_lhs => rw [hsplit]
        exact completePart_append _ _ (completePart_ends c)
      have hentry : (linesOf (completePart d)).filterMap parse =
          (linesOf (completePart c)).filterMap parse ++
            (linesOf (completePart (tailPart c ++ t))).filterMap parse := by
        rw [hcomplete, linesOf_append _ _ (completePart_ends c), List.filterMap_append]
      have hlen : (completePart d).length =
          (completePart c).length + (completePart (tailPart c ++ t)).length := by
        rw [hcomplete, List.length_append]
      have hstep : tailJSONL parse d (completePart c).length =
          ((linesOf (completePart (tailPart c ++ t))).filterMap parse,
            (completePart c).length + (completePart (tailPart c ++ t)).length) := by
        simp only [tailJSONL, hdrop]
      simp only [List.foldl_cons, List.getLastD_cons, hstep]
      rw [← hentry, ← hlen]
      exact readAll_loop parse ds d hg'

/-- Claim C7: for every sequence of incremental reads of a growing log file,
each read's returned offset is at least its starting offset, and the
concatenation of all returned record batches together with the final offset
equals what a single read of the last snapshot from offset 0 produces
(split-invariance; in particular no record is parsed twice, since the
one-pass read parses each complete line exactly once). -/
theorem C7_offset_monotone_split_invariance (parse : List Char → Option LogEntry)
    (cs : List (List Char)) (hg : Growing [] cs) :
    (∀ (content : List Char) (fromByte : Nat),
        fromByte ≤ (tailJSONL parse content fromByte).2) ∧
    readAll parse cs = tailJSONL parse (cs.getLastD []) 0 := by
  constructor
  · intro content fromByte
    simp only [tailJSONL]
    exact Nat.le_add_right _ _
  · have h := readAll_loop parse cs [] hg
    unfold readAll tailJSONL
    simp only [List.drop_zero, Nat.zero_add]
    exact h

/-- Witness for C7 on a concrete two-snapshot growth chain: reading
incrementally returns the same records as one full pass over the final
content. -/
theorem C7_offset_monotone_split_invariance_witness :
    readAll (fun _ => some LogEntry.other) [['a', '\n'], ['a', '\n', 'b', '\n']] =
      tailJSONL (fun _ => some LogEntry.other) ['a', '\n', 'b', '\n'] 0 := by
  have hg : Growing [] [['a', '\n'], ['a', '\n', 'b', '\n']] :=
    ⟨⟨['a', '\n'], rfl⟩, ⟨['b', '\n'], rfl⟩, trivial⟩
  exact (C7_offset_monotone_split_invariance (fun _ => some LogEntry.other) _ hg).2
